import Mathlib

/-
Verification of the ARM PMU core driver (arch/arm/kernel/perf_event.c) by
shallow embedding. Machine integers are modelled as Nat or Int with explicit
reduction modulo 2 to the word width at the points where the C code wraps;
error returns are the negated errno constants the source uses. Each
definition cites the source lines it embeds.
-/

namespace ArmPmuVerify

/- Errno constants used by the driver (negated on return). -/

def EPERM : Int := 1

def ENOENT : Int := 2

def ENODEV : Int := 19

def EINVAL : Int := 22

def ENOSPC : Int := 28

/- Two complement reinterpretation helpers between a u64 bit pattern (a Nat
below 2 to the 64) and the s64 value it denotes. -/

/-- The s64 value denoted by a u64 bit pattern. -/
def toS64 (p : Nat) : Int :=
  if p < 2 ^ 63 then (p : Int) else (p : Int) - 2 ^ 64

/-- The u64 bit pattern holding an s64 value. -/
def ofS64 (x : Int) : Nat :=
  (x % 2 ^ 64).toNat

/-- Wrapping of an Int into the s64 range, as two complement arithmetic does. -/
def s64wrap (x : Int) : Int :=
  (x + 2 ^ 63) % 2 ^ 64 - 2 ^ 63

/- Cache map lookup, perf_event.c lines 130-157 (armpmu_map_cache_event).
The three enumerated maxima (PERF_COUNT_HW_CACHE_MAX and friends) and the
model specific table are compile time constants of a header outside the
core file, so they are parameters here. -/

def CACHE_OP_UNSUPPORTED : Nat := 0xFFFF

/-- Lines 130-157: decode a u64 config into (cache_type, cache_op,
cache_result), range check each field, then consult the cache map. -/
def armpmu_map_cache_event (cacheMax opMax resultMax : Nat)
    (cache_map : Nat → Nat → Nat → Nat) (config : Nat) : Int :=
  let cache_type := (config >>> 0) &&& 0xff
  if cacheMax ≤ cache_type then -EINVAL
  else
    let cache_op := (config >>> 8) &&& 0xff
    if opMax ≤ cache_op then -EINVAL
    else
      let cache_result := (config >>> 16) &&& 0xff
      if resultMax ≤ cache_result then -EINVAL
      else
        let ret := cache_map cache_type cache_op cache_result
        if ret = CACHE_OP_UNSUPPORTED then -ENOENT else (ret : Int)

/- Per event hardware state (the hw_perf_event sub record the core manages).
All 64 bit cells are kept as u64 bit patterns. -/

structure HwPerfEvent where
  idx : Int
  prev_count : Nat
  period_left : Nat
  sample_period : Nat
  last_period : Nat
deriving DecidableEq

/-- The per event state armpmu_event_update touches: the cumulative count
(event->count) and the hw sub record. -/
structure PerfEventState where
  count : Nat
  hw : HwPerfEvent
deriving DecidableEq

/-- Lines 230-258 (armpmu_event_update): one pass of the delta accounting.
In this sequential embedding the cmpxchg succeeds at once, storing the raw
(unmasked) read value into the shadow prev_count; both values are then
masked with max_period, the delta is computed in u64 arithmetic (the
overflow formula max_period - prev + new + 1, otherwise new - prev), added
to the count and subtracted from period_left (both wrapping at 2 to the 64).
Returns the updated state and the masked new value the C function returns.
read_val stands for the u32 value read_counter(idx) returned. -/
def armpmu_event_update (max_period : Nat) (ev : PerfEventState) (idx : Int)
    (read_val : Nat) (overflow : Bool) : PerfEventState × Nat :=
  let prev_raw_count := ev.hw.prev_count
  let new_raw_count := read_val
  let new_m := new_raw_count &&& max_period
  let prev_m := prev_raw_count &&& max_period
  let delta :=
    if overflow then (max_period - prev_m + new_m + 1) % 2 ^ 64
    else (new_m + 2 ^ 64 - prev_m) % 2 ^ 64
  ({ count := (ev.count + delta) % 2 ^ 64,
     hw := { ev.hw with
               prev_count := new_raw_count,
               period_left := (ev.hw.period_left + (2 ^ 64 - delta)) % 2 ^ 64 } },
   new_m)

/-- Lines 260-270 (armpmu_read): a disabled counter (idx below 0) is not
read at all; otherwise one delta accounting pass with no overflow. The
second component lists the hardware counter indices actually read. -/
def armpmu_read (max_period : Nat) (ev : PerfEventState) (read_val : Nat) :
    PerfEventState × List Int :=
  if ev.hw.idx < 0 then (ev, [])
  else ((armpmu_event_update max_period ev ev.hw.idx read_val false).1, [ev.hw.idx])

/-- Lines 194-228 (armpmu_event_set_period): reprogram the period. left and
period are read as s64 values; the two updates are sequential if statements
in the source. The clamp to max_period applies to the value programmed into
the hardware (and the prev_count shadow), not to the stored period_left.
Returns (ret, updated hw state, the u32 value written to the counter);
the AND of the u64 negation with 0xffffffff is reduction mod 2 to the 32. -/
def armpmu_event_set_period (max_period : Nat) (hwc : HwPerfEvent) (idx : Int) :
    Int × HwPerfEvent × Nat :=
  let left0 := toS64 hwc.period_left
  let period := toS64 hwc.sample_period
  let a1 := left0 ≤ -period
  let left1 := if a1 then period else left0
  let hwc1 := if a1 then
      { hwc with period_left := ofS64 period, last_period := ofS64 period }
    else hwc
  let ret1 : Int := if a1 then 1 else 0
  let a2 := left1 ≤ 0
  let left2 := if a2 then s64wrap (left1 + period) else left1
  let hwc2 := if a2 then
      { hwc1 with period_left := ofS64 (s64wrap (left1 + period)),
                  last_period := ofS64 period }
    else hwc1
  let ret2 : Int := if a2 then 1 else ret1
  let left3 := if toS64 max_period < left2 then toS64 max_period else left2
  let hwc3 := { hwc2 with prev_count := ofS64 (-left3) }
  (ret2, hwc3, ofS64 (-left3) % 2 ^ 32)

/- The per CPU counter table, perf_event.c lines 41-58 (struct
cpu_hw_events): slot to occupying event (events[]) and the occupancy bitset
(used_mask), the latter modelled as the finite set of indices whose bit is
one. Events are identified by a Nat id standing for the perf_event object. -/

structure CpuHwEvents where
  events : Nat → Option Nat
  used_mask : Finset Nat

/-- A zeroed cpu_hw_events, as memset produces (validate_group line 390)
and as each table starts at registration. -/
def emptyCpuHwEvents : CpuHwEvents :=
  { events := fun _ => none, used_mask := ∅ }

/- The backend allocator armpmu->get_event_idx(cpuc, hwc) (called at line
344 and line 381). Its implementations live in the model specific files
outside the core, so it is a parameter. On success it returns the chosen
index and the table with that used_mask bit now set. -/

def Alloc : Type :=
  CpuHwEvents → Nat → Option (Nat × CpuHwEvents)

/-- Modelled from the spec: the allocate_index contract of the Backend
Operation Table (spec 4.1) for a backend with n counters, the concrete
get_event_idx implementations being outside the core file. A successful
allocation picks a free index below n and sets exactly that used_mask bit,
touching nothing else; a failed allocation mutates nothing (it returns
none, leaving the table as given). -/
def AllocOk (alloc : Alloc) (n : Nat) : Prop :=
  ∀ t e i t2, alloc t e = some (i, t2) →
    i < n ∧ i ∉ t.used_mask ∧
    t2.used_mask = insert i t.used_mask ∧ t2.events = t.events

/-- Modelled from the spec: a concrete allocator instance choosing the first
free index below n, used to instantiate witnesses. -/
def firstFree (n : Nat) : Alloc := fun t _e =>
  match (List.range n).find? (fun i => decide (i ∉ t.used_mask)) with
  | some i => some (i, { t with used_mask := insert i t.used_mask })
  | none => none

/- A machine over the per event hardware indices and the per CPU tables,
on which the add and del operations of the driver act. -/

structure PmuMachine where
  hwIdx : Nat → Int
  tables : Nat → CpuHwEvents

/-- Line 534 of __hw_perf_event_init: hwc->idx = -1, the unassigned
sentinel, set before the event is placed onto hardware. -/
def init_event_idx (s : PmuMachine) (e : Nat) : PmuMachine :=
  { s with hwIdx := Function.update s.hwIdx e (-1) }

/-- Lines 332-368 (armpmu_add), slot bookkeeping on the table of cpu c: ask
the backend for an index (which sets the used_mask bit); on failure return
with the state unchanged; on success store the index in hwc->idx and the
event in events[idx]. -/
def armpmu_add (alloc : Alloc) (s : PmuMachine) (c e : Nat) : PmuMachine :=
  match alloc (s.tables c) e with
  | none => s
  | some (i, t2) =>
      { hwIdx := Function.update s.hwIdx e (i : Int),
        tables := Function.update s.tables c
          { t2 with events := Function.update t2.events i (some e) } }

/-- Lines 315-330 (armpmu_del): clear events[idx] and the used_mask bit at
idx = hwc->idx. The hwc->idx field itself is not written. -/
def armpmu_del (s : PmuMachine) (c e : Nat) : PmuMachine :=
  let i := (s.hwIdx e).toNat
  let t := s.tables c
  let t2 : CpuHwEvents :=
    { events := Function.update t.events i none,
      used_mask := t.used_mask.erase i }
  { s with tables := Function.update s.tables c t2 }

inductive PmuOp where
  | init (e : Nat)
  | add (c e : Nat)
  | del (c e : Nat)

def applyOp (alloc : Alloc) (s : PmuMachine) : PmuOp → PmuMachine
  | .init e => init_event_idx s e
  | .add c e => armpmu_add alloc s c e
  | .del c e => armpmu_del s c e

def exec (alloc : Alloc) : PmuMachine → List PmuOp → PmuMachine
  | s, [] => s
  | s, op :: ops => exec alloc (applyOp alloc s op) ops

/-- The event occupies some counter slot of some CPU table. -/
def scheduled (s : PmuMachine) (e : Nat) : Prop :=
  ∃ c i, (s.tables c).events i = some e

/-- The call discipline the generic perf framework guarantees the driver:
an event is initialized or added only while it occupies no slot, and
deleted only on the CPU where it is currently scheduled at its recorded
index (armpmu_del asserts WARN_ON(idx < 0) at line 323). -/
def WfOp (s : PmuMachine) : PmuOp → Prop
  | .init e => ¬ scheduled s e
  | .add _c e => ¬ scheduled s e
  | .del c e => 0 ≤ s.hwIdx e ∧ (s.tables c).events (s.hwIdx e).toNat = some e

def WfOps (alloc : Alloc) : PmuMachine → List PmuOp → Prop
  | _, [] => True
  | s, op :: ops => WfOp s op ∧ WfOps alloc (applyOp alloc s op) ops

/-- The state at boot: every index unassigned, every table zeroed. -/
def initState : PmuMachine :=
  { hwIdx := fun _ => -1, tables := fun _ => emptyCpuHwEvents }

/-- The bookkeeping invariant of the per CPU tables: every used bit is below
the counter capacity, the bitset mirrors the occupancy of events[], every
occupant records its slot in hwIdx, and no event occupies two slots. -/
def PmuInv (n : Nat) (s : PmuMachine) : Prop :=
  (∀ c i, i ∈ (s.tables c).used_mask → i < n) ∧
  (∀ c i, i ∈ (s.tables c).used_mask ↔ ((s.tables c).events i).isSome) ∧
  (∀ c i e, (s.tables c).events i = some e → s.hwIdx e = (i : Int)) ∧
  (∀ c1 i1 c2 i2 e, (s.tables c1).events i1 = some e →
      (s.tables c2).events i2 = some e → c1 = c2 ∧ i1 = i2)

/-- The occupied slots of a table among the ARMPMU_MAX_HWEVENTS = 32 array
entries (perf_event.c line 38). -/
def occupiedSlots (t : CpuHwEvents) (N : Nat) : Finset Nat :=
  (Finset.range N).filter (fun i => ((t.events i)).isSome)

/- Group validation, perf_event.c lines 370-404. Each group member is
modelled by the fields validate_event consults: the pmu the event belongs
to, its administrative state, and an id standing for its hw_perf_event
(of which validate_event passes a throwaway copy to the allocator). -/

def PERF_EVENT_STATE_OFF : Int := -1

structure VEvent where
  pmuId : Nat
  state : Int
  eid : Nat
deriving DecidableEq

/-- Lines 370-382 (validate_event): an event of another pmu than its group
leader, or one administratively disabled (state at most OFF), is trivially
valid and the scratch table is untouched; otherwise the backend allocator
is consulted on the scratch table and validity is a nonnegative index.
Returns the validity and the (possibly updated) scratch table. -/
def validate_event (alloc : Alloc) (leaderPmu : Nat) (cpuc : CpuHwEvents)
    (ev : VEvent) : Bool × CpuHwEvents :=
  if ev.pmuId ≠ leaderPmu ∨ ev.state ≤ PERF_EVENT_STATE_OFF then (true, cpuc)
  else
    match alloc cpuc ev.eid with
    | some (_, t2) => (true, t2)
    | none => (false, cpuc)

/-- The run of validate_event over a member list, threading the scratch
table; none when some member fails. -/
def validateList (alloc : Alloc) (leaderPmu : Nat) :
    CpuHwEvents → List VEvent → Option CpuHwEvents
  | t, [] => some t
  | t, e :: es =>
      if (validate_event alloc leaderPmu t e).1 then
        validateList alloc leaderPmu (validate_event alloc leaderPmu t e).2 es
      else none

/-- Lines 384-404 (validate_group): validate the leader, every sibling and
the event under test, in that order, against a freshly zeroed scratch table
(the memset at line 390); -ENOSPC as soon as one member fails, else 0. -/
def validate_group (alloc : Alloc) (leader : VEvent) (siblings : List VEvent)
    (ev : VEvent) : Int :=
  match validateList alloc leader.pmuId emptyCpuHwEvents
      (leader :: (siblings ++ [ev])) with
  | some _ => 0
  | none => -ENOSPC

/-- validate_group as called within the machine: it builds its own scratch
table and touches no real CPU table and no real event state, so the machine
state passes through unchanged. -/
def run_validate_group (alloc : Alloc) (s : PmuMachine) (leader : VEvent)
    (siblings : List VEvent) (ev : VEvent) : Int × PmuMachine :=
  (validate_group alloc leader siblings ev, s)

/- Event initialization, perf_event.c lines 506-600. -/

structure PerfEventAttr where
  exclude_idle : Bool
  exclude_user : Bool
  exclude_kernel : Bool
  exclude_hv : Bool
deriving DecidableEq

/-- An event as armpmu_event_init sees it: its attr, the VEvent data of the
event itself, and, when its group leader is another event, that leader and
the sibling list. -/
structure PerfEvent where
  attr : PerfEventAttr
  self : VEvent
  group : Option (VEvent × List VEvent)

/-- The backend operations __hw_perf_event_init consults. map_event and the
optional set_event_filter are model specific and live outside the core
file, so they are fields of this parameter record. -/
structure ArmPmuBackend where
  map_event : PerfEventAttr → Int
  set_event_filter : Option (PerfEventAttr → Int)
  max_period : Nat

/-- Lines 506-511 (event_requires_mode_exclusion). -/
def event_requires_mode_exclusion (attr : PerfEventAttr) : Bool :=
  attr.exclude_idle || attr.exclude_user || attr.exclude_kernel || attr.exclude_hv

/-- The condition of lines 542-543: no set_event_filter operation, or the
filter call returned nonzero. -/
def filter_unsupported (b : ArmPmuBackend) (attr : PerfEventAttr) : Bool :=
  match b.set_event_filter with
  | none => true
  | some f => decide (f attr ≠ 0)

/-- Lines 513-569 (__hw_perf_event_init): map the event (failing with the
mapping error), fail with -EPERM when mode exclusion is requested but
unsupported, and for an event whose group leader is not itself run
validate_group, converting its failure into -EINVAL (lines 562-566). The
hwc field initialization of line 534 is init_event_idx above. -/
def hw_perf_event_init (b : ArmPmuBackend) (alloc : Alloc) (ev : PerfEvent) : Int :=
  let mapping := b.map_event ev.attr
  if mapping < 0 then mapping
  else if filter_unsupported b ev.attr && event_requires_mode_exclusion ev.attr then
    -EPERM
  else
    match ev.group with
    | none => 0
    | some (leader, siblings) =>
        if validate_group alloc leader siblings ev.self = 0 then 0 else -EINVAL

/-- The hardware wide effects armpmu_event_init can trigger. -/
inductive HwEffect where
  | reserve
  | release
deriving DecidableEq

/-- Lines 571-600 (armpmu_event_init), with the reserve and release calls
recorded as a trace. reserveResult is what armpmu_reserve_hardware would
return (0 for success). active_events is the system wide atomic counter.
When the counter is zero the hardware is reserved first (lines 582-590);
only then does __hw_perf_event_init run, and on its failure
hw_perf_event_destroy (lines 493-504) decrements the counter and releases
the hardware when it reaches zero. -/
def armpmu_event_init (b : ArmPmuBackend) (alloc : Alloc) (reserveResult : Int)
    (active_events : Nat) (ev : PerfEvent) : Int × Nat × List HwEffect :=
  if b.map_event ev.attr = -ENOENT then (-ENOENT, active_events, [])
  else
    let step1 : Int × Nat × List HwEffect :=
      if active_events ≠ 0 then (0, active_events + 1, [])
      else if reserveResult = 0 then (0, 1, [HwEffect.reserve])
      else (reserveResult, 0, [HwEffect.reserve])
    if step1.1 ≠ 0 then step1
    else
      let err := hw_perf_event_init b alloc ev
      if err ≠ 0 then
        let ae := step1.2.1 - 1
        (err, ae, step1.2.2 ++ (if ae = 0 then [HwEffect.release] else []))
      else (0, step1.2.1, step1.2.2)

/- Interrupt reservation, perf_event.c lines 406-491. The platform
configuration (resources, platform_get_irq, irq_set_affinity and
request_irq outcomes, and the reserve_pmu outcome) is a parameter record;
the state tracks the active_irqs cpumask and whether the lower level
platform reservation (reserve_pmu) is currently held. -/

structure PmuPlatform where
  reservePmuRes : Int
  num_resources : Nat
  num_cpus : Nat
  getIrq : Nat → Int
  affinityOk : Nat → Bool
  requestRes : Nat → Int

structure IrqState where
  active_irqs : Finset Nat
  pmu_reserved : Bool
deriving DecidableEq

/-- Lines 415-432 (armpmu_release_hardware): free every irq whose cpu bit is
set in active_irqs among the first min(num_resources, num_cpus) cpus, then
always release the platform level reservation. -/
def armpmu_release_hardware (p : PmuPlatform) (s : IrqState) : IrqState :=
  let irqs := min p.num_resources p.num_cpus
  { active_irqs := s.active_irqs \ Finset.range irqs, pmu_reserved := false }

/-- Lines 460-488: the per cpu request loop. A negative platform irq or a
failed affinity setting with more than one irq in play skips the cpu; a
failed request_irq releases the hardware and returns the error; a
successful request records the cpu in active_irqs. -/
def reserve_loop (p : PmuPlatform) : List Nat → IrqState → Int × IrqState
  | [], s => (0, s)
  | i :: rest, s =>
      if p.getIrq i < 0 then reserve_loop p rest s
      else if p.affinityOk i = false ∧ 1 < min p.num_resources p.num_cpus then
        reserve_loop p rest s
      else if p.requestRes i ≠ 0 then (p.requestRes i, armpmu_release_hardware p s)
      else reserve_loop p rest { s with active_irqs := insert i s.active_irqs }

/-- Lines 434-491 (armpmu_reserve_hardware): take the platform level
reservation (returning its error untouched when it fails), compute irqs =
min(num_resources, num_cpus), fail with -ENODEV when that is below one, and
otherwise run the request loop over cpus 0..irqs-1. -/
def armpmu_reserve_hardware (p : PmuPlatform) (s : IrqState) : Int × IrqState :=
  if p.reservePmuRes ≠ 0 then (p.reservePmuRes, s)
  else
    let s1 := { s with pmu_reserved := true }
    let irqs := min p.num_resources p.num_cpus
    if irqs < 1 then (-ENODEV, s1)
    else reserve_loop p (List.range irqs) s1

/- Concrete instances evaluated by the witnesses and counterexamples. -/

/-- A concrete cache map for the C9 witness. -/
def cmapW : Nat → Nat → Nat → Nat := fun t op res => t + 10 * op + 100 * res

/-- A disabled event for the C10 witness. -/
def evDisabled : PerfEventState :=
  { count := 7,
    hw := { idx := -1, prev_count := 3, period_left := 9,
            sample_period := 5, last_period := 5 } }

/-- A concrete event state for the C3 witness: shadow at max_period - 10. -/
def evC3 : PerfEventState :=
  { count := 0,
    hw := { idx := 0, prev_count := 2 ^ 32 - 11, period_left := 50,
            sample_period := 0, last_period := 0 } }

/-- A concrete hw state for the C4 witness: period_remaining 0, period 1000. -/
def hwcC4 : HwPerfEvent :=
  { idx := 0, prev_count := 0, period_left := 0, sample_period := 1000,
    last_period := 0 }

/-- A concrete hw state with a negative (s64) sample period. -/
def hwcC4n : HwPerfEvent :=
  { idx := 0, prev_count := 0, period_left := 3, sample_period := ofS64 (-5),
    last_period := 0 }

/-- The run refuting claim C1 as stated: init, add, del of one event. -/
def c1Run : PmuMachine :=
  exec (firstFree 1) initState [PmuOp.init 0, PmuOp.add 0 0, PmuOp.del 0 0]

/-- Members of the over capacity group for the C5 witness. -/
def vLeader : VEvent := { pmuId := 0, state := 0, eid := 0 }

def vSib : VEvent := { pmuId := 0, state := 0, eid := 1 }

def vEv : VEvent := { pmuId := 0, state := 0, eid := 2 }

/-- A descriptor with no exclusion bits and a backend mapping every event
to encoding 0 with no mode filter. -/
def attrPlain : PerfEventAttr :=
  { exclude_idle := false, exclude_user := false, exclude_kernel := false,
    exclude_hv := false }

def backendPlain : ArmPmuBackend :=
  { map_event := fun _ => 0, set_event_filter := none, max_period := 2 ^ 32 - 1 }

/-- A grouped event whose leader already exhausts the single counter. -/
def evC6 : PerfEvent :=
  { attr := attrPlain, self := vSib, group := some (vLeader, []) }

/-- A descriptor requesting user mode exclusion. -/
def attrExcl : PerfEventAttr :=
  { exclude_idle := false, exclude_user := true, exclude_kernel := false,
    exclude_hv := false }

/-- An ungrouped event requesting mode exclusion. -/
def evC7 : PerfEvent :=
  { attr := attrExcl, self := vEv, group := none }

/-- A platform whose second request_irq fails mid loop, for the witness. -/
def platMid : PmuPlatform :=
  { reservePmuRes := 0, num_resources := 2, num_cpus := 2,
    getIrq := fun i => (i : Int) + 32, affinityOk := fun _ => true,
    requestRes := fun i => if i = 0 then 0 else -16 }

/-- A platform with the reservation succeeding and zero interrupt
resources. -/
def platNoIrq : PmuPlatform :=
  { reservePmuRes := 0, num_resources := 0, num_cpus := 4,
    getIrq := fun _ => -1, affinityOk := fun _ => true,
    requestRes := fun _ => 0 }

/- Helper lemmas about the 64 bit reinterpretation functions. -/

theorem toS64_bounds (p : Nat) (h : p < 2 ^ 64) :
    -(2 ^ 63) ≤ toS64 p ∧ toS64 p < 2 ^ 63 := by
  unfold toS64
  split_ifs with hlt <;> constructor <;> push_cast <;> omega

theorem toS64_ofS64 (x : Int) (h1 : -(2 ^ 63) ≤ x) (h2 : x < 2 ^ 63) :
    toS64 (ofS64 x) = x := by
  unfold toS64 ofS64
  split_ifs with hlt <;> push_cast <;> omega

theorem s64wrap_eq_self (x : Int) (h1 : -(2 ^ 63) ≤ x) (h2 : x < 2 ^ 63) :
    s64wrap x = x := by
  unfold s64wrap
  omega

theorem toS64_of_small (p : Nat) (h : p < 2 ^ 63) : toS64 p = (p : Int) := by
  unfold toS64
  rw [if_pos h]

theorem ofS64_mod_congr (x y : Int) (h : x = y) :
    ofS64 (-x) % 2 ^ 32 = ofS64 (-y) % 2 ^ 32 := by
  rw [h]

/-- Claim C9: armpmu_map_cache_event decodes a config into 8 bits of cache
type, 8 bits of cache operation and 8 bits of cache result; any field at or
above its enumerated maximum yields -EINVAL, and an in range triple packed
into the three byte fields is decoded back to exactly that triple and looked
up in the cache map (an unsupported entry yielding -ENOENT). -/
theorem C9_cache_map_decode (cacheMax opMax resultMax : Nat)
    (cache_map : Nat → Nat → Nat → Nat) :
    (∀ config : Nat,
        (cacheMax ≤ (config >>> 0) &&& 0xff ∨ opMax ≤ (config >>> 8) &&& 0xff ∨
         resultMax ≤ (config >>> 16) &&& 0xff) →
        armpmu_map_cache_event cacheMax opMax resultMax cache_map config = -EINVAL)
    ∧ (∀ t op res : Nat, t < cacheMax → op < opMax → res < resultMax →
        t < 2 ^ 8 → op < 2 ^ 8 → res < 2 ^ 8 →
        armpmu_map_cache_event cacheMax opMax resultMax cache_map
            (t + op * 2 ^ 8 + res * 2 ^ 16) =
          (if cache_map t op res = CACHE_OP_UNSUPPORTED then -ENOENT
           else (cache_map t op res : Int))) := by
  have hff : (0xff : Nat) = 2 ^ 8 - 1 := by norm_num
  constructor
  · intro config hcfg
    simp only [armpmu_map_cache_event]
    by_cases h1 : cacheMax ≤ (config >>> 0) &&& 0xff
    · rw [if_pos h1]
    · rw [if_neg h1]
      by_cases h2 : opMax ≤ (config >>> 8) &&& 0xff
      · rw [if_pos h2]
      · rw [if_neg h2]
        have h3 : resultMax ≤ (config >>> 16) &&& 0xff := by
          rcases hcfg with h | h | h
          · exact absurd h h1
          · exact absurd h h2
          · exact h
        rw [if_pos h3]
  · intro t op res ht ho hr ht8 ho8 hr8
    have e8 : (2 : Nat) ^ 8 = 256 := by norm_num
    have e16 : (2 : Nat) ^ 16 = 65536 := by norm_num
    have hd0 : ((t + op * 2 ^ 8 + res * 2 ^ 16) >>> 0) &&& 0xff = t := by
      rw [hff, Nat.and_pow_two_sub_one_eq_mod, Nat.shiftRight_eq_div_pow]
      rw [e8, e16] at *
      omega
    have hd8 : ((t + op * 2 ^ 8 + res * 2 ^ 16) >>> 8) &&& 0xff = op := by
      rw [hff, Nat.and_pow_two_sub_one_eq_mod, Nat.shiftRight_eq_div_pow]
      rw [e8, e16] at *
      omega
    have hd16 : ((t + op * 2 ^ 8 + res * 2 ^ 16) >>> 16) &&& 0xff = res := by
      rw [hff, Nat.and_pow_two_sub_one_eq_mod, Nat.shiftRight_eq_div_pow]
      rw [e8, e16] at *
      omega
    simp only [armpmu_map_cache_event, hd0, hd8, hd16]
    rw [if_neg (by omega), if_neg (by omega), if_neg (by omega)]

/-- Claim C9 witness: with maxima (7, 3, 2), the packed triple (1, 2, 0)
at config 0x0201 decodes to the map entry 21, and type = 255 is rejected. -/
theorem C9_cache_map_decode_witness :
    armpmu_map_cache_event 7 3 2 cmapW 255 = -EINVAL
    ∧ armpmu_map_cache_event 7 3 2 cmapW 0x0201 = 21 := by
  have h := C9_cache_map_decode 7 3 2 cmapW
  constructor
  · apply h.1 255
    left
    have hff : (0xff : Nat) = 2 ^ 8 - 1 := by norm_num
    rw [hff, Nat.and_pow_two_sub_one_eq_mod, Nat.shiftRight_eq_div_pow]
    norm_num
  · have h2 := h.2 1 2 0 (by norm_num) (by norm_num) (by norm_num)
        (by norm_num) (by norm_num) (by norm_num)
    norm_num [cmapW, CACHE_OP_UNSUPPORTED] at h2
    exact h2

/-- Claim C10: for an event whose hardware index is the unassigned sentinel
(idx below 0), armpmu_read performs no hardware read and leaves the whole
event state (count, shadow, period state) unchanged. -/
theorem C10_read_disabled_noop (max_period : Nat) (ev : PerfEventState)
    (read_val : Nat) (h : ev.hw.idx < 0) :
    armpmu_read max_period ev read_val = (ev, []) := by
  unfold armpmu_read
  rw [if_pos h]

/-- Claim C10 witness: reading a concrete unscheduled event changes
nothing and reads no counter. -/
theorem C10_read_disabled_noop_witness :
    armpmu_read (2 ^ 32 - 1) evDisabled 123 = (evDisabled, []) :=
  C10_read_disabled_noop (2 ^ 32 - 1) evDisabled 123 (by decide)

/-- Claim C3: one delta accounting pass with prev and new already masked to
max_period adds, with the overflow flag, max_period - prev + new + 1, and
without it the u64 difference new - prev, to the cumulative count, subtracts
the same delta from period_left (both wrapping at 2 to the 64), returns the
masked new value, and stores the read value as the new shadow. -/
theorem C3_delta_accounting (max_period : Nat) (ev : PerfEventState) (idx : Int)
    (rv : Nat) (overflow : Bool)
    (hmp : max_period < 2 ^ 63)
    (hprev : ev.hw.prev_count &&& max_period = ev.hw.prev_count)
    (hrv : rv &&& max_period = rv) :
    ((armpmu_event_update max_period ev idx rv overflow).1.count =
        (ev.count + (if overflow then max_period - ev.hw.prev_count + rv + 1
                     else (rv + 2 ^ 64 - ev.hw.prev_count) % 2 ^ 64)) % 2 ^ 64)
    ∧ ((armpmu_event_update max_period ev idx rv overflow).1.hw.period_left =
        (ev.hw.period_left +
          (2 ^ 64 - (if overflow then max_period - ev.hw.prev_count + rv + 1
                     else (rv + 2 ^ 64 - ev.hw.prev_count) % 2 ^ 64))) % 2 ^ 64)
    ∧ ((armpmu_event_update max_period ev idx rv overflow).2 = rv)
    ∧ ((armpmu_event_update max_period ev idx rv overflow).1.hw.prev_count = rv)
    ∧ (overflow = false → ev.hw.prev_count ≤ rv →
        (armpmu_event_update max_period ev idx rv overflow).1.count =
          (ev.count + (rv - ev.hw.prev_count)) % 2 ^ 64) := by
  have hprevle : ev.hw.prev_count ≤ max_period := hprev ▸ Nat.and_le_right
  have hrvle : rv ≤ max_period := hrv ▸ Nat.and_le_right
  have hdelta : (max_period - ev.hw.prev_count + rv + 1) % 2 ^ 64 =
      max_period - ev.hw.prev_count + rv + 1 :=
    Nat.mod_eq_of_lt (by omega)
  refine ⟨?_, ?_, ?_, ?_, ?_⟩
  · simp only [armpmu_event_update, hprev, hrv]
    cases overflow <;> simp [hdelta]
  · simp only [armpmu_event_update, hprev, hrv]
    cases overflow <;> simp [hdelta] <;> omega
  · simp only [armpmu_event_update, hprev, hrv]
  · simp only [armpmu_event_update, hprev, hrv]
  · intro hov hle
    subst hov
    have hsub : (rv + 2 ^ 64 - ev.hw.prev_count) % 2 ^ 64 = rv - ev.hw.prev_count := by
      omega
    simp only [armpmu_event_update, hprev, hrv]
    simp [hsub]
    omega

/-- Claim C3 witness: prev = max_period - 10 and new = 5 in an overflow
pass give delta 16, added to the count and subtracted from period_left. -/
theorem C3_delta_accounting_witness :
    (armpmu_event_update (2 ^ 32 - 1) evC3 0 5 true).1.count = 16
    ∧ (armpmu_event_update (2 ^ 32 - 1) evC3 0 5 true).1.hw.period_left = 34
    ∧ (armpmu_event_update (2 ^ 32 - 1) evC3 0 5 true).2 = 5 := by
  have hmask : ∀ x : Nat, x < 2 ^ 32 → x &&& (2 ^ 32 - 1) = x := by
    intro x hx
    rw [Nat.and_pow_two_sub_one_eq_mod, Nat.mod_eq_of_lt hx]
  have h := C3_delta_accounting (2 ^ 32 - 1) evC3 0 5 true (by norm_num)
      (hmask evC3.hw.prev_count (by norm_num [evC3])) (hmask 5 (by norm_num))
  refine ⟨?_, ?_, h.2.2.1⟩
  · rw [h.1]
    norm_num [evC3]
  · rw [h.2.1]
    norm_num [evC3]

/-- Claim C4 (amended to calls with a nonnegative period, the source
updating sequentially rather than by else-if): a badly stale
period_remaining (at most -P) is reset to P with the changed flag; one
merely nonpositive has P added with the changed flag; a positive one is
kept with no flag; and the hardware register is programmed with the
negation of the branch result clamped to max_period, truncated to 32
bits. -/
theorem C4_set_period (max_period : Nat) (hwc : HwPerfEvent) (idx : Int)
    (hmp : max_period < 2 ^ 63) (hpl : hwc.period_left < 2 ^ 64)
    (hsp : hwc.sample_period < 2 ^ 64)
    (hP : 0 ≤ toS64 hwc.sample_period) :
    ((toS64 hwc.period_left ≤ -(toS64 hwc.sample_period)) →
        (armpmu_event_set_period max_period hwc idx).1 = 1 ∧
        toS64 (armpmu_event_set_period max_period hwc idx).2.1.period_left =
          toS64 hwc.sample_period)
    ∧ ((-(toS64 hwc.sample_period) < toS64 hwc.period_left) →
        toS64 hwc.period_left ≤ 0 →
        (armpmu_event_set_period max_period hwc idx).1 = 1 ∧
        toS64 (armpmu_event_set_period max_period hwc idx).2.1.period_left =
          toS64 hwc.period_left + toS64 hwc.sample_period)
    ∧ (0 < toS64 hwc.period_left →
        (armpmu_event_set_period max_period hwc idx).1 = 0 ∧
        toS64 (armpmu_event_set_period max_period hwc idx).2.1.period_left =
          toS64 hwc.period_left)
    ∧ ((armpmu_event_set_period max_period hwc idx).2.2 =
        ofS64 (-(min ((max_period : Int))
          (if toS64 hwc.period_left ≤ -(toS64 hwc.sample_period) then
            toS64 hwc.sample_period
           else if toS64 hwc.period_left ≤ 0 then
            toS64 hwc.period_left + toS64 hwc.sample_period
           else toS64 hwc.period_left))) % 2 ^ 32) := by
  obtain ⟨hLlo, hLhi⟩ := toS64_bounds hwc.period_left hpl
  obtain ⟨hPlo, hPhi⟩ := toS64_bounds hwc.sample_period hsp
  have hmps : toS64 max_period = (max_period : Int) := toS64_of_small max_period hmp
  refine ⟨?_, ?_, ?_, ?_⟩
  · intro hA1
    by_cases hA2 : toS64 hwc.sample_period ≤ 0
    · have hP0 : toS64 hwc.sample_period = 0 := le_antisymm hA2 hP
      have hw0 : s64wrap (toS64 hwc.sample_period + toS64 hwc.sample_period) = 0 := by
        rw [hP0]
        norm_num [s64wrap]
      have h00 : toS64 (ofS64 (0 : Int)) = 0 := toS64_ofS64 0 (by norm_num) (by norm_num)
      constructor
      · simp [armpmu_event_set_period, if_pos hA1, if_pos hA2]
      · simp only [armpmu_event_set_period, if_pos hA1, if_pos hA2, hw0, h00]
        omega
    · push_neg at hA2
      have hPP : toS64 (ofS64 (toS64 hwc.sample_period)) = toS64 hwc.sample_period :=
        toS64_ofS64 _ (by omega) (by omega)
      constructor
      · simp [armpmu_event_set_period, if_pos hA1, if_neg (not_le.mpr hA2)]
      · simp only [armpmu_event_set_period, if_pos hA1, if_neg (not_le.mpr hA2), hPP]
  · intro hgt hle
    have hA1 : ¬ (toS64 hwc.period_left ≤ -(toS64 hwc.sample_period)) := not_le.mpr hgt
    have hwLP : s64wrap (toS64 hwc.period_left + toS64 hwc.sample_period) =
        toS64 hwc.period_left + toS64 hwc.sample_period :=
      s64wrap_eq_self _ (by omega) (by omega)
    have hLP : toS64 (ofS64 (toS64 hwc.period_left + toS64 hwc.sample_period)) =
        toS64 hwc.period_left + toS64 hwc.sample_period :=
      toS64_ofS64 _ (by omega) (by omega)
    constructor
    · simp [armpmu_event_set_period, if_neg hA1, if_pos hle]
    · simp only [armpmu_event_set_period, if_neg hA1, if_pos hle, hwLP, hLP]
  · intro hpos
    have hA1 : ¬ (toS64 hwc.period_left ≤ -(toS64 hwc.sample_period)) :=
      not_le.mpr (by omega)
    have hA2 : ¬ (toS64 hwc.period_left ≤ 0) := not_le.mpr hpos
    constructor
    · simp [armpmu_event_set_period, if_neg hA1, if_neg hA2]
    · simp [armpmu_event_set_period, if_neg hA1, if_neg hA2]
  · by_cases hA1 : toS64 hwc.period_left ≤ -(toS64 hwc.sample_period)
    · by_cases hA2 : toS64 hwc.sample_period ≤ 0
      · have hP0 : toS64 hwc.sample_period = 0 := le_antisymm hA2 hP
        have hw0 : s64wrap (toS64 hwc.sample_period + toS64 hwc.sample_period) = 0 := by
          rw [hP0]
          norm_num [s64wrap]
        simp only [armpmu_event_set_period, if_pos hA1, if_pos hA2, hw0, hmps]
        rw [if_neg (show ¬ ((max_period : Int) < 0) by omega)]
        exact ofS64_mod_congr _ _ (by omega)
      · push_neg at hA2
        simp only [armpmu_event_set_period, if_pos hA1, if_neg (not_le.mpr hA2), hmps]
        by_cases hc : (max_period : Int) < toS64 hwc.sample_period
        · rw [if_pos hc]
          exact ofS64_mod_congr _ _ (by omega)
        · rw [if_neg hc]
          exact ofS64_mod_congr _ _ (by omega)
    · push_neg at hA1
      by_cases hA2 : toS64 hwc.period_left ≤ 0
      · have hwLP : s64wrap (toS64 hwc.period_left + toS64 hwc.sample_period) =
            toS64 hwc.period_left + toS64 hwc.sample_period :=
          s64wrap_eq_self _ (by omega) (by omega)
        simp only [armpmu_event_set_period, if_neg (not_le.mpr hA1), if_pos hA2,
          hwLP, hmps]
        by_cases hc : (max_period : Int) <
            toS64 hwc.period_left + toS64 hwc.sample_period
        · rw [if_pos hc]
          exact ofS64_mod_congr _ _ (by omega)
        · rw [if_neg hc]
          exact ofS64_mod_congr _ _ (by omega)
      · simp only [armpmu_event_set_period, if_neg (not_le.mpr hA1), if_neg hA2, hmps]
        by_cases hc : (max_period : Int) < toS64 hwc.period_left
        · rw [if_pos hc]
          exact ofS64_mod_congr _ _ (by omega)
        · rw [if_neg hc]
          exact ofS64_mod_congr _ _ (by omega)

/-- Claim C4 witness: period_remaining = 0 and P = 1000 yield the changed
flag, period_remaining 1000, and the register programmed with -1000 mod
2 to the 32. -/
theorem C4_set_period_witness :
    (armpmu_event_set_period (2 ^ 32 - 1) hwcC4 0).1 = 1
    ∧ toS64 (armpmu_event_set_period (2 ^ 32 - 1) hwcC4 0).2.1.period_left = 1000
    ∧ (armpmu_event_set_period (2 ^ 32 - 1) hwcC4 0).2.2 = 2 ^ 32 - 1000 := by
  have hL : toS64 hwcC4.period_left = 0 := by norm_num [toS64, hwcC4]
  have hSP : toS64 hwcC4.sample_period = 1000 := by norm_num [toS64, hwcC4]
  have h := C4_set_period (2 ^ 32 - 1) hwcC4 0 (by norm_num)
      (by norm_num [hwcC4]) (by norm_num [hwcC4]) (by rw [hSP]; norm_num)
  have h2 := h.2.1 (by rw [hL, hSP]; norm_num) (by rw [hL])
  refine ⟨h2.1, by rw [h2.2, hL, hSP]; norm_num, ?_⟩
  rw [h.2.2.2, hL, hSP]
  norm_num [ofS64]
  decide

/-- Claim C4 counterexample: with period_remaining = 3 and P = -5 the claim
as stated resets period_remaining to P = -5, but the source runs the second
update as well and leaves -10. -/
theorem C4_negative_period_counterexample :
    toS64 (armpmu_event_set_period (2 ^ 32 - 1) hwcC4n 0).2.1.period_left = -10
    ∧ ((-10 : Int) ≠ -5) := by
  constructor
  · norm_num [armpmu_event_set_period, toS64, ofS64, s64wrap, hwcC4n]
  · decide

/- Machine lemmas for the counter table claims. -/

theorem allocOk_firstFree (n : Nat) : AllocOk (firstFree n) n := by
  intro t e i t2 h
  unfold firstFree at h
  rcases hfind : (List.range n).find? (fun j => decide (j ∉ t.used_mask)) with _ | j
  · rw [hfind] at h
    cases h
  · rw [hfind] at h
    have hj0 := List.find?_some hfind
    simp only [decide_eq_true_eq] at hj0
    have hjn := List.mem_range.mp (List.mem_of_find?_eq_some hfind)
    cases h
    exact ⟨hjn, hj0, rfl, rfl⟩

theorem pmuInv_initState (n : Nat) : PmuInv n initState := by
  refine ⟨?_, ?_, ?_, ?_⟩
  · intro c i hi
    simp [initState, emptyCpuHwEvents] at hi
  · intro c i
    simp [initState, emptyCpuHwEvents]
  · intro c i e h
    simp [initState, emptyCpuHwEvents] at h
  · intro c1 i1 c2 i2 e h1 h2
    simp [initState, emptyCpuHwEvents] at h1

theorem pmuInv_applyOp (alloc : Alloc) (n : Nat) (hA : AllocOk alloc n)
    (s : PmuMachine) (op : PmuOp) (hs : PmuInv n s) (hop : WfOp s op) :
    PmuInv n (applyOp alloc s op) := by
  obtain ⟨h1, h2, h3, h4⟩ := hs
  cases op with
  | init e =>
      show PmuInv n (init_event_idx s e)
      refine ⟨h1, h2, ?_, h4⟩
      intro c i e2 hocc
      by_cases he : e2 = e
      · subst he
        exact absurd ⟨c, i, hocc⟩ hop
      · simpa [init_event_idx, Function.update_apply, he] using h3 c i e2 hocc
  | add c e =>
      show PmuInv n (armpmu_add alloc s c e)
      rcases halloc : alloc (s.tables c) e with _ | ⟨i, t2⟩
      · simpa [armpmu_add, halloc] using ⟨h1, h2, h3, h4⟩
      · obtain ⟨hin, hfree, hmask, hevents⟩ := hA _ _ _ _ halloc
        have htab : ∀ c2, (armpmu_add alloc s c e).tables c2 =
            if c2 = c then
              { t2 with events := Function.update t2.events i (some e) }
            else s.tables c2 := by
          intro c2
          simp [armpmu_add, halloc, Function.update_apply]
        have hidx : ∀ e2, (armpmu_add alloc s c e).hwIdx e2 =
            if e2 = e then (i : Int) else s.hwIdx e2 := by
          intro e2
          simp [armpmu_add, halloc, Function.update_apply]
        refine ⟨?_, ?_, ?_, ?_⟩
        · intro c2 j hj
          rw [htab c2] at hj
          by_cases hc : c2 = c
          · rw [if_pos hc] at hj
            simp only [hmask, Finset.mem_insert] at hj
            rcases hj with rfl | hj
            · exact hin
            · exact h1 c j hj
          · rw [if_neg hc] at hj
            exact h1 c2 j hj
        · intro c2 j
          rw [htab c2]
          by_cases hc : c2 = c
          · rw [if_pos hc]
            simp only [hmask, Finset.mem_insert, hevents, Function.update_apply]
            by_cases hji : j = i
            · simp [hji]
            · simpa [hji] using h2 c j
          · rw [if_neg hc]
            exact h2 c2 j
        · intro c2 j e2 hocc
          rw [htab c2] at hocc
          rw [hidx e2]
          by_cases hc : c2 = c
          · rw [if_pos hc] at hocc
            simp only [hevents, Function.update_apply] at hocc
            by_cases hji : j = i
            · rw [if_pos hji] at hocc
              cases hocc
              rw [if_pos rfl, hji]
            · rw [if_neg hji] at hocc
              have he2 : e2 ≠ e := by
                intro hcon
                subst hcon
                exact hop ⟨c, j, hocc⟩
              rw [if_neg he2]
              exact h3 c j e2 hocc
          · rw [if_neg hc] at hocc
            have he2 : e2 ≠ e := by
              intro hcon
              subst hcon
              exact hop ⟨c2, j, hocc⟩
            rw [if_neg he2]
            exact h3 c2 j e2 hocc
        · intro c1 j1 c2 j2 e2 ho1 ho2
          rw [htab c1] at ho1
          rw [htab c2] at ho2
          have hcase : ∀ c3 j3, (if c3 = c then
              { t2 with events := Function.update t2.events i (some e) }
            else s.tables c3).events j3 = some e2 →
              (c3 = c ∧ j3 = i ∧ e2 = e) ∨ ((s.tables c3).events j3 = some e2) := by
            intro c3 j3 h
            by_cases hc : c3 = c
            · subst hc
              rw [if_pos rfl] at h
              simp only [hevents, Function.update_apply] at h
              by_cases hji : j3 = i
              · rw [if_pos hji] at h
                cases h
                exact Or.inl ⟨rfl, hji, rfl⟩
              · rw [if_neg hji] at h
                exact Or.inr h
            · rw [if_neg hc] at h
              exact Or.inr h
          rcases hcase c1 j1 ho1 with ⟨hc1, hj1, he2⟩ | ho1n
          · rcases hcase c2 j2 ho2 with ⟨hc2, hj2, _⟩ | ho2n
            · exact ⟨hc1.trans hc2.symm, hj1.trans hj2.symm⟩
            · subst he2
              exact absurd ⟨c2, j2, ho2n⟩ hop
          · rcases hcase c2 j2 ho2 with ⟨hc2, hj2, he2⟩ | ho2n
            · subst he2
              exact absurd ⟨c1, j1, ho1n⟩ hop
            · exact h4 c1 j1 c2 j2 e2 ho1n ho2n
  | del c e =>
      show PmuInv n (armpmu_del s c e)
      obtain ⟨hge, hocc⟩ := hop
      have htab : ∀ c2, (armpmu_del s c e).tables c2 =
          if c2 = c then
            { events := Function.update (s.tables c).events ((s.hwIdx e).toNat) none,
              used_mask := (s.tables c).used_mask.erase ((s.hwIdx e).toNat) }
          else s.tables c2 := by
        intro c2
        simp [armpmu_del, Function.update_apply]
      refine ⟨?_, ?_, ?_, ?_⟩
      · intro c2 j hj
        rw [htab c2] at hj
        by_cases hc : c2 = c
        · rw [if_pos hc] at hj
          exact h1 c j (Finset.mem_of_mem_erase hj)
        · rw [if_neg hc] at hj
          exact h1 c2 j hj
      · intro c2 j
        rw [htab c2]
        by_cases hc : c2 = c
        · rw [if_pos hc]
          simp only [Finset.mem_erase, Function.update_apply]
          by_cases hji : j = (s.hwIdx e).toNat
          · simp [hji]
          · simpa [hji] using h2 c j
        · rw [if_neg hc]
          exact h2 c2 j
      · intro c2 j e2 ho
        rw [htab c2] at ho
        by_cases hc : c2 = c
        · rw [if_pos hc] at ho
          simp only [Function.update_apply] at ho
          by_cases hji : j = (s.hwIdx e).toNat
          · rw [if_pos hji] at ho
            cases ho
          · rw [if_neg hji] at ho
            exact h3 c j e2 ho
        · rw [if_neg hc] at ho
          exact h3 c2 j e2 ho
      · intro c1 j1 c2 j2 e2 ho1 ho2
        rw [htab c1] at ho1
        rw [htab c2] at ho2
        have hstrip : ∀ c3 j3, (if c3 = c then
            ({ events := Function.update (s.tables c).events ((s.hwIdx e).toNat) none,
               used_mask := (s.tables c).used_mask.erase ((s.hwIdx e).toNat) }
              : CpuHwEvents)
          else s.tables c3).events j3 = some e2 →
            (s.tables c3).events j3 = some e2 := by
          intro c3 j3 h
          by_cases hc : c3 = c
          · subst hc
            rw [if_pos rfl] at h
            simp only [Function.update_apply] at h
            by_cases hji : j3 = (s.hwIdx e).toNat
            · rw [if_pos hji] at h
              cases h
            · rwa [if_neg hji] at h
          · rwa [if_neg hc] at h
        exact h4 c1 j1 c2 j2 e2 (hstrip c1 j1 ho1) (hstrip c2 j2 ho2)

theorem pmuInv_exec (alloc : Alloc) (n : Nat) (hA : AllocOk alloc n) :
    ∀ (ops : List PmuOp) (s : PmuMachine), PmuInv n s → WfOps alloc s ops →
      PmuInv n (exec alloc s ops) := by
  intro ops
  induction ops with
  | nil =>
      intro s hs _
      exact hs
  | cons op rest ih =>
      intro s hs hwf
      exact ih (applyOp alloc s op) (pmuInv_applyOp alloc n hA s op hs hwf.1) hwf.2

theorem not_scheduled_initState (e : Nat) : ¬ scheduled initState e := by
  rintro ⟨c, i, h⟩
  simp [initState, emptyCpuHwEvents] at h

/-- Claim C1 (amended: the equivalence holds only in the occupies-implies-
valid direction, because armpmu_del does not reset hwc->idx): under the
allocate_index contract, initialization sets the index to the -1 sentinel;
armpmu_add assigns the index exactly when a slot is claimed and leaves the
state untouched on allocation failure; along every well formed operation
sequence every table occupant records its slot (hence a nonnegative index);
and after armpmu_del the event occupies no slot anywhere while its
hardware index keeps its previous, now stale, value. -/
theorem C1_index_lifecycle (alloc : Alloc) (n : Nat) (hA : AllocOk alloc n) :
    (∀ (s : PmuMachine) (e : Nat), (init_event_idx s e).hwIdx e = -1)
    ∧ (∀ (s : PmuMachine) (c e : Nat), alloc (s.tables c) e = none →
        armpmu_add alloc s c e = s)
    ∧ (∀ (s : PmuMachine) (c e i : Nat) (t2 : CpuHwEvents),
        alloc (s.tables c) e = some (i, t2) →
        (armpmu_add alloc s c e).hwIdx e = (i : Int) ∧
        ((armpmu_add alloc s c e).tables c).events i = some e ∧
        i ∈ ((armpmu_add alloc s c e).tables c).used_mask)
    ∧ (∀ ops : List PmuOp, WfOps alloc initState ops →
        ∀ c i e : Nat, ((exec alloc initState ops).tables c).events i = some e →
          (exec alloc initState ops).hwIdx e = (i : Int))
    ∧ (∀ (s : PmuMachine) (c e : Nat), PmuInv n s → WfOp s (PmuOp.del c e) →
        ¬ scheduled (armpmu_del s c e) e ∧
        (armpmu_del s c e).hwIdx e = s.hwIdx e) := by
  refine ⟨?_, ?_, ?_, ?_, ?_⟩
  · intro s e
    simp [init_event_idx]
  · intro s c e h
    simp [armpmu_add, h]
  · intro s c e i t2 h
    obtain ⟨hin, hfree, hmask, hevents⟩ := hA _ _ _ _ h
    refine ⟨?_, ?_, ?_⟩
    · simp [armpmu_add, h]
    · simp [armpmu_add, h]
    · simp [armpmu_add, h, hmask]
  · intro ops hwf c i e hocc
    have hinv := pmuInv_exec alloc n hA ops initState (pmuInv_initState n) hwf
    exact hinv.2.2.1 c i e hocc
  · intro s c e hinv hop
    obtain ⟨hge, hocc⟩ := hop
    constructor
    · rintro ⟨c2, i2, h⟩
      have htab : (armpmu_del s c e).tables c2 =
          if c2 = c then
            { events := Function.update (s.tables c).events ((s.hwIdx e).toNat) none,
              used_mask := (s.tables c).used_mask.erase ((s.hwIdx e).toNat) }
          else s.tables c2 := by
        simp [armpmu_del, Function.update_apply]
      rw [htab] at h
      by_cases hc : c2 = c
      · subst hc
        rw [if_pos rfl] at h
        simp only [Function.update_apply] at h
        by_cases hji : i2 = (s.hwIdx e).toNat
        · rw [if_pos hji] at h
          cases h
        · rw [if_neg hji] at h
          obtain ⟨-, hj⟩ := hinv.2.2.2 c2 i2 c2 ((s.hwIdx e).toNat) e h hocc
          exact hji hj
      · rw [if_neg hc] at h
        obtain ⟨hcc, -⟩ := hinv.2.2.2 c2 i2 c ((s.hwIdx e).toNat) e h hocc
        exact hc hcc
    · simp [armpmu_del]

/-- An AllocOk fact for the witnesses. -/
theorem allocOk_firstFree_two : AllocOk (firstFree 2) 2 := allocOk_firstFree 2

/-- Claim C1 witness: with the first-free allocator over two counters,
initialization plants the sentinel, and after the sequence init-then-add
the occupant of slot 0 records index 0. -/
theorem C1_index_lifecycle_witness :
    (init_event_idx initState 5).hwIdx 5 = -1
    ∧ (exec (firstFree 2) initState [PmuOp.init 0, PmuOp.add 0 0]).hwIdx 0 = 0 := by
  have h := C1_index_lifecycle (firstFree 2) 2 allocOk_firstFree_two
  refine ⟨h.1 initState 5, ?_⟩
  have hwf : WfOps (firstFree 2) initState [PmuOp.init 0, PmuOp.add 0 0] :=
    ⟨not_scheduled_initState 0, not_scheduled_initState 0, trivial⟩
  exact h.2.2.2.1 [PmuOp.init 0, PmuOp.add 0 0] hwf 0 0 0 (by decide)

/-- Claim C1 counterexample: after armpmu_del the event occupies no slot in
any CPU table, yet its hardware index is still 0 (not the sentinel), so the
valid-iff-occupies equivalence fails in the valid-implies-occupies
direction. -/
theorem C1_stale_index_counterexample :
    c1Run.hwIdx 0 = 0 ∧ ¬ scheduled c1Run 0 := by
  have hadd : (c1Run.tables 0).events =
      Function.update (Function.update (fun _ => none) 0 (some 0)) 0 none := rfl
  have htabs : c1Run.tables = Function.update
      (Function.update (fun _ => emptyCpuHwEvents) 0
        ({ events := Function.update (fun _ => none) 0 (some 0),
           used_mask := {0} } : CpuHwEvents)) 0
      ({ events := Function.update (Function.update (fun _ => none) 0 (some 0)) 0 none,
         used_mask := ({0} : Finset Nat).erase 0 } : CpuHwEvents) := rfl
  constructor
  · decide
  · rintro ⟨c, i, h⟩
    by_cases hc : c = 0
    · subst hc
      rw [hadd, Function.update_apply] at h
      by_cases hi : i = 0
      · rw [if_pos hi] at h
        cases h
      · rw [if_neg hi, Function.update_apply, if_neg hi] at h
        cases h
    · rw [htabs, Function.update_noteq hc, Function.update_noteq hc] at h
      simp [emptyCpuHwEvents] at h

/-- Claim C2: along every well formed add/del sequence from the zeroed
state, the cardinality of the used_mask bitset of each CPU table equals the
number of occupied slots of its 32 entry events array, and never exceeds
the number of hardware counters n. -/
theorem C2_used_mask_cardinality (alloc : Alloc) (n : Nat) (hA : AllocOk alloc n)
    (hn : n ≤ 32) (ops : List PmuOp) (hwf : WfOps alloc initState ops) (c : Nat) :
    ((exec alloc initState ops).tables c).used_mask.card =
        (occupiedSlots ((exec alloc initState ops).tables c) 32).card
    ∧ ((exec alloc initState ops).tables c).used_mask.card ≤ n := by
  have hinv := pmuInv_exec alloc n hA ops initState (pmuInv_initState n) hwf
  obtain ⟨h1, h2, -, -⟩ := hinv
  have hmask_eq : ((exec alloc initState ops).tables c).used_mask =
      occupiedSlots ((exec alloc initState ops).tables c) 32 := by
    ext i
    simp only [occupiedSlots, Finset.mem_filter, Finset.mem_range]
    constructor
    · intro hi
      exact ⟨lt_of_lt_of_le (h1 c i hi) hn, (h2 c i).mp hi⟩
    · rintro ⟨-, hsome⟩
      exact (h2 c i).mpr hsome
  refine ⟨by rw [hmask_eq], ?_⟩
  have hsub : ((exec alloc initState ops).tables c).used_mask ⊆ Finset.range n :=
    fun i hi => Finset.mem_range.mpr (h1 c i hi)
  calc ((exec alloc initState ops).tables c).used_mask.card
      ≤ (Finset.range n).card := Finset.card_le_card hsub
    _ = n := Finset.card_range n

/-- Claim C2 witness: after init and one add with the first-free allocator
over two counters, cpu 0 holds one used bit, one occupant, and one is at
most two. -/
theorem C2_used_mask_cardinality_witness :
    ((exec (firstFree 2) initState [PmuOp.init 0, PmuOp.add 0 0]).tables 0).used_mask.card =
        (occupiedSlots ((exec (firstFree 2) initState
          [PmuOp.init 0, PmuOp.add 0 0]).tables 0) 32).card
    ∧ ((exec (firstFree 2) initState
          [PmuOp.init 0, PmuOp.add 0 0]).tables 0).used_mask.card ≤ 2 :=
  C2_used_mask_cardinality (firstFree 2) 2 allocOk_firstFree_two (by norm_num)
    [PmuOp.init 0, PmuOp.add 0 0]
    ⟨not_scheduled_initState 0, not_scheduled_initState 0, trivial⟩ 0

/- Lemmas for the group validator. -/

theorem validate_event_trivial (alloc : Alloc) (lp : Nat) (t : CpuHwEvents)
    (ev : VEvent) (h : ev.pmuId ≠ lp ∨ ev.state ≤ PERF_EVENT_STATE_OFF) :
    validate_event alloc lp t ev = (true, t) := by
  unfold validate_event
  rw [if_pos h]

theorem validate_event_fst_false (alloc : Alloc) (lp : Nat) (t : CpuHwEvents)
    (ev : VEvent) :
    (validate_event alloc lp t ev).1 = false ↔
      ev.pmuId = lp ∧ ¬ ev.state ≤ PERF_EVENT_STATE_OFF ∧ alloc t ev.eid = none := by
  unfold validate_event
  by_cases h : ev.pmuId ≠ lp ∨ ev.state ≤ PERF_EVENT_STATE_OFF
  · rw [if_pos h]
    simp only [Bool.true_eq_false, false_iff]
    rintro ⟨h1, h2, -⟩
    rcases h with h | h
    · exact h h1
    · exact h2 h
  · rw [if_neg h]
    push_neg at h
    rcases halloc : alloc t ev.eid with _ | p
    · simp [h]
    · simp [h, halloc]

theorem validate_event_false_snd (alloc : Alloc) (lp : Nat) (t : CpuHwEvents)
    (ev : VEvent) (h : (validate_event alloc lp t ev).1 = false) :
    validate_event alloc lp t ev = (false, t) := by
  unfold validate_event at h ⊢
  by_cases hcond : ev.pmuId ≠ lp ∨ ev.state ≤ PERF_EVENT_STATE_OFF
  · rw [if_pos hcond] at h
    cases h
  · rw [if_neg hcond] at h ⊢
    rcases halloc : alloc t ev.eid with _ | ⟨i, t2⟩
    · rfl
    · rw [halloc] at h
      simp at h

theorem validateList_none_iff (alloc : Alloc) (lp : Nat) :
    ∀ (l : List VEvent) (t : CpuHwEvents),
      validateList alloc lp t l = none ↔
        ∃ pre m post t2, l = pre ++ m :: post ∧
          validateList alloc lp t pre = some t2 ∧
          m.pmuId = lp ∧ ¬ m.state ≤ PERF_EVENT_STATE_OFF ∧
          alloc t2 m.eid = none := by
  intro l
  induction l with
  | nil =>
      intro t
      constructor
      · intro h
        simp [validateList] at h
      · rintro ⟨pre, m, post, t2, hd, -⟩
        exact absurd hd (by simp)
  | cons e es ih =>
      intro t
      constructor
      · intro h
        by_cases hv : (validate_event alloc lp t e).1
        · rw [validateList, if_pos hv] at h
          obtain ⟨pre, m, post, t2, hd, hpre, hm1, hm2, hm3⟩ := (ih _).mp h
          refine ⟨e :: pre, m, post, t2, by simp [hd], ?_, hm1, hm2, hm3⟩
          rw [validateList, if_pos hv]
          exact hpre
        · have hfalse : (validate_event alloc lp t e).1 = false := by
            revert hv
            cases (validate_event alloc lp t e).1 <;> simp
          obtain ⟨h1, h2, h3⟩ := (validate_event_fst_false alloc lp t e).mp hfalse
          exact ⟨[], e, es, t, rfl, rfl, h1, h2, h3⟩
      · rintro ⟨pre, m, post, t2, hd, hpre, hm1, hm2, hm3⟩
        cases pre with
        | nil =>
            simp only [List.nil_append] at hd
            injection hd with h1 h2
            subst h1
            subst h2
            have ht2 : t2 = t := by
              simpa [validateList] using hpre.symm
            subst ht2
            have hfalse : (validate_event alloc lp t2 e).1 = false :=
              (validate_event_fst_false alloc lp t2 e).mpr ⟨hm1, hm2, hm3⟩
            rw [validateList, if_neg (by simp [hfalse])]
        | cons p ps =>
            simp only [List.cons_append, List.cons.injEq] at hd
            obtain ⟨rfl, rfl⟩ := hd
            rw [validateList] at hpre
            by_cases hv : (validate_event alloc lp t e).1
            · rw [if_pos hv] at hpre
              rw [validateList, if_pos hv]
              exact (ih _).mpr ⟨ps, m, post, t2, rfl, hpre, hm1, hm2, hm3⟩
            · rw [if_neg hv] at hpre
              cases hpre

/-- Claim C5: validate_group, simulating the placement of the leader, every
sibling and the event under test on a zeroed scratch table with throwaway
copies of the hardware state, returns 0 or -ENOSPC; it returns -ENOSPC
exactly when some member for which the allocator is consulted (same backend,
not administratively disabled) gets no slot on the threaded scratch table; a
member of another backend or disabled is trivially valid and leaves the
scratch table untouched; and the whole run leaves the machine state (every
real CPU table and every event record) unchanged. -/
theorem C5_validate_group_frame (alloc : Alloc) (leader : VEvent)
    (siblings : List VEvent) (ev : VEvent) :
    (validate_group alloc leader siblings ev = 0 ∨
     validate_group alloc leader siblings ev = -ENOSPC)
    ∧ (validate_group alloc leader siblings ev = -ENOSPC ↔
        ∃ pre m post t2,
          leader :: (siblings ++ [ev]) = pre ++ m :: post ∧
          validateList alloc leader.pmuId emptyCpuHwEvents pre = some t2 ∧
          m.pmuId = leader.pmuId ∧ ¬ m.state ≤ PERF_EVENT_STATE_OFF ∧
          alloc t2 m.eid = none)
    ∧ (∀ (t : CpuHwEvents) (m : VEvent),
        (m.pmuId ≠ leader.pmuId ∨ m.state ≤ PERF_EVENT_STATE_OFF) →
        validate_event alloc leader.pmuId t m = (true, t))
    ∧ (∀ s : PmuMachine, run_validate_group alloc s leader siblings ev =
        (validate_group alloc leader siblings ev, s)) := by
  refine ⟨?_, ?_, ?_, ?_⟩
  · unfold validate_group
    rcases validateList alloc leader.pmuId emptyCpuHwEvents
        (leader :: (siblings ++ [ev])) with _ | t
    · exact Or.inr rfl
    · exact Or.inl rfl
  · constructor
    · intro h
      have hnone : validateList alloc leader.pmuId emptyCpuHwEvents
          (leader :: (siblings ++ [ev])) = none := by
        revert h
        unfold validate_group
        rcases validateList alloc leader.pmuId emptyCpuHwEvents
            (leader :: (siblings ++ [ev])) with _ | t
        · intro _
          rfl
        · intro h
          exact absurd h (by norm_num [ENOSPC])
      exact (validateList_none_iff alloc leader.pmuId _ _).mp hnone
    · intro hex
      have hnone := (validateList_none_iff alloc leader.pmuId
          (leader :: (siblings ++ [ev])) emptyCpuHwEvents).mpr hex
      unfold validate_group
      rw [hnone]
  · intro t m hm
    exact validate_event_trivial alloc leader.pmuId t m hm
  · intro s
    rfl

/-- Claim C5 witness: a three member group over a two counter backend is
rejected with -ENOSPC and the machine state passes through untouched. -/
theorem C5_validate_group_frame_witness :
    validate_group (firstFree 2) vLeader [vSib] vEv = -ENOSPC
    ∧ run_validate_group (firstFree 2) initState vLeader [vSib] vEv =
        (validate_group (firstFree 2) vLeader [vSib] vEv, initState) := by
  constructor
  · rfl
  · exact (C5_validate_group_frame (firstFree 2) vLeader [vSib] vEv).2.2.2 initState

/-- Claim C6 (amended: the failure reported by __hw_perf_event_init on a
failed group validation is -EINVAL, the -ENOSPC of the validator being
converted at lines 562-566): for an event whose group leader is another
event, once mapping succeeds and the mode exclusion check passes, the
initialization runs validate_group and returns -EINVAL exactly when
validation fails, 0 otherwise. -/
theorem C6_group_validation_result (b : ArmPmuBackend) (alloc : Alloc)
    (ev : PerfEvent) (leader : VEvent) (siblings : List VEvent)
    (hgrp : ev.group = some (leader, siblings))
    (hmap : 0 ≤ b.map_event ev.attr)
    (hperm : ¬ (filter_unsupported b ev.attr = true ∧
                event_requires_mode_exclusion ev.attr = true)) :
    (validate_group alloc leader siblings ev.self ≠ 0 →
        hw_perf_event_init b alloc ev = -EINVAL)
    ∧ (validate_group alloc leader siblings ev.self = 0 →
        hw_perf_event_init b alloc ev = 0) := by
  have hmapneg : ¬ (b.map_event ev.attr < 0) := not_lt.mpr hmap
  have hband : ¬ ((filter_unsupported b ev.attr &&
      event_requires_mode_exclusion ev.attr) = true) := by
    rw [Bool.and_eq_true]
    exact hperm
  constructor
  · intro hval
    unfold hw_perf_event_init
    rw [if_neg hmapneg, if_neg hband, hgrp]
    simp only [if_neg hval]
  · intro hval
    unfold hw_perf_event_init
    rw [if_neg hmapneg, if_neg hband, hgrp]
    simp only [if_pos hval]

/-- Claim C6 witness: on a one counter backend the two member group fails
validation and __hw_perf_event_init returns -EINVAL. -/
theorem C6_group_validation_result_witness :
    hw_perf_event_init backendPlain (firstFree 1) evC6 = -EINVAL :=
  (C6_group_validation_result backendPlain (firstFree 1) evC6 vLeader []
      rfl (by norm_num [backendPlain]) (by simp [attrPlain, evC6,
        event_requires_mode_exclusion])).1 (by decide)

/-- Claim C6 counterexample: the initialization failure code on a failed
group validation is -EINVAL and not the -ENOSPC the claim states. -/
theorem C6_einval_not_enospc :
    hw_perf_event_init backendPlain (firstFree 1) evC6 = -EINVAL
    ∧ hw_perf_event_init backendPlain (firstFree 1) evC6 ≠ -ENOSPC := by
  constructor
  · rfl
  · intro h
    rw [show hw_perf_event_init backendPlain (firstFree 1) evC6 = -EINVAL from rfl]
      at h
    norm_num [EINVAL, ENOSPC] at h

/-- Claim C7 (amended: the -EPERM failure is decided inside
__hw_perf_event_init, which armpmu_event_init runs only after the first
event reservation; the reservation is rolled back by the destroy path, so
creation still fails with -EPERM and no resource stays held, but a
reservation does occur before the failure): for a mappable descriptor
requesting mode exclusion on a backend with no or failing filter,
__hw_perf_event_init returns -EPERM; armpmu_event_init returns -EPERM,
restores the active event count, and its effect trace is reserve followed
by release when this was the first event, empty otherwise. -/
theorem C7_mode_exclusion_eperm (b : ArmPmuBackend) (alloc : Alloc)
    (reserveResult : Int) (active : Nat) (ev : PerfEvent)
    (hmap : 0 ≤ b.map_event ev.attr)
    (hexcl : event_requires_mode_exclusion ev.attr = true)
    (hfilt : filter_unsupported b ev.attr = true)
    (hres : reserveResult = 0 ∨ active ≠ 0) :
    hw_perf_event_init b alloc ev = -EPERM
    ∧ (armpmu_event_init b alloc reserveResult active ev).1 = -EPERM
    ∧ (armpmu_event_init b alloc reserveResult active ev).2.1 = active
    ∧ (armpmu_event_init b alloc reserveResult active ev).2.2 =
        (if active = 0 then [HwEffect.reserve, HwEffect.release] else []) := by
  have hinit : hw_perf_event_init b alloc ev = -EPERM := by
    unfold hw_perf_event_init
    rw [if_neg (not_lt.mpr hmap), if_pos (by rw [Bool.and_eq_true]; exact ⟨hfilt, hexcl⟩)]
  have hnoent : ¬ (b.map_event ev.attr = -ENOENT) := by
    intro h
    rw [h] at hmap
    norm_num [ENOENT] at hmap
  refine ⟨hinit, ?_⟩
  by_cases hact : active = 0
  · rcases hres with hres | hres
    · subst hact
      subst hres
      refine ⟨?_, ?_, ?_⟩ <;>
        norm_num [armpmu_event_init, hnoent, hinit, EPERM]
    · exact absurd hact hres
  · refine ⟨?_, ?_, ?_⟩ <;>
      norm_num [armpmu_event_init, hnoent, hinit, EPERM, hact]

/-- Claim C7 witness: on the filterless backend, the excluding event fails
with -EPERM as the first event, the count returns to 0, and the trace is
reserve then release. -/
theorem C7_mode_exclusion_eperm_witness :
    hw_perf_event_init backendPlain (firstFree 1) evC7 = -EPERM
    ∧ (armpmu_event_init backendPlain (firstFree 1) 0 0 evC7).1 = -EPERM
    ∧ (armpmu_event_init backendPlain (firstFree 1) 0 0 evC7).2.1 = 0
    ∧ (armpmu_event_init backendPlain (firstFree 1) 0 0 evC7).2.2 =
        [HwEffect.reserve, HwEffect.release] := by
  have h := C7_mode_exclusion_eperm backendPlain (firstFree 1) 0 0 evC7
      (by norm_num [backendPlain]) (by decide) (by decide) (Or.inl rfl)
  exact ⟨h.1, h.2.1, h.2.2.1, h.2.2.2⟩

/-- Claim C7 counterexample: the failing creation performs a hardware
reservation before the -EPERM failure is determined (its trace contains
reserve), contradicting the claim that the failure precedes any
reservation. -/
theorem C7_reservation_precedes_counterexample :
    (armpmu_event_init backendPlain (firstFree 1) 0 0 evC7).1 = -EPERM
    ∧ HwEffect.reserve ∈ (armpmu_event_init backendPlain (firstFree 1) 0 0 evC7).2.2 := by
  decide

/- Lemmas for the interrupt reservation rollback. -/

theorem reserve_loop_fail (p : PmuPlatform) :
    ∀ (l : List Nat) (s : IrqState) (err : Int) (s2 : IrqState),
      s.active_irqs ⊆ Finset.range (min p.num_resources p.num_cpus) →
      (∀ i ∈ l, i < min p.num_resources p.num_cpus) →
      reserve_loop p l s = (err, s2) → err ≠ 0 →
      s2.active_irqs = ∅ ∧ s2.pmu_reserved = false := by
  intro l
  induction l with
  | nil =>
      intro s err s2 _ _ h hne
      rw [reserve_loop] at h
      injection h with h1 h2
      exact absurd h1.symm hne
  | cons i rest ih =>
      intro s err s2 hsub hmem h hne
      rw [reserve_loop] at h
      split_ifs at h with h1 h2 h3
      · exact ih s err s2 hsub (fun j hj => hmem j (List.mem_cons_of_mem i hj)) h hne
      · exact ih s err s2 hsub (fun j hj => hmem j (List.mem_cons_of_mem i hj)) h hne
      · injection h with hl hr
        subst hr
        refine ⟨?_, rfl⟩
        exact Finset.sdiff_eq_empty_iff_subset.mpr hsub
      · refine ih _ err s2 ?_ (fun j hj => hmem j (List.mem_cons_of_mem i hj)) h hne
        intro j hj
        simp only [Finset.mem_insert] at hj
        rcases hj with rfl | hj
        · exact Finset.mem_range.mpr (hmem j (List.mem_cons_self j rest))
        · exact hsub hj

/-- Claim C8 (amended: the all-or-nothing rollback holds for failures inside
the request loop, which release every claimed interrupt and the platform
level reservation; but the fewer-than-one-interrupt failure path returns
-ENODEV with the platform level reservation still held): starting from the
empty interrupt state with the platform reservation succeeding, a resource
count below one yields -ENODEV with pmu_reserved still true, while any
failing run with at least one resource ends with no active interrupt and
the platform reservation released. -/
theorem C8_reserve_rollback (p : PmuPlatform) (hres : p.reservePmuRes = 0) :
    (min p.num_resources p.num_cpus < 1 →
        armpmu_reserve_hardware p { active_irqs := ∅, pmu_reserved := false } =
          (-ENODEV, { active_irqs := ∅, pmu_reserved := true }))
    ∧ (∀ (err : Int) (s2 : IrqState),
        armpmu_reserve_hardware p { active_irqs := ∅, pmu_reserved := false } =
            (err, s2) →
        err ≠ 0 → 1 ≤ min p.num_resources p.num_cpus →
        s2.active_irqs = ∅ ∧ s2.pmu_reserved = false) := by
  have hcond : ¬ (p.reservePmuRes ≠ 0) := by
    rw [hres]
    norm_num
  constructor
  · intro hlt
    unfold armpmu_reserve_hardware
    rw [if_neg hcond, if_pos hlt]
  · intro err s2 h hne hge
    unfold armpmu_reserve_hardware at h
    rw [if_neg hcond, if_neg (not_lt.mpr hge)] at h
    refine reserve_loop_fail p (List.range (min p.num_resources p.num_cpus))
        { active_irqs := ∅, pmu_reserved := true } err s2 ?_ ?_ h hne
    · intro j hj
      simp at hj
    · intro j hj
      exact List.mem_range.mp hj

/-- Claim C8 witness: on the two cpu platform whose second request fails,
the failed reservation ends with no active interrupt and the platform
reservation released. -/
theorem C8_reserve_rollback_witness :
    (armpmu_reserve_hardware platMid
        { active_irqs := ∅, pmu_reserved := false }).2.active_irqs = ∅
    ∧ (armpmu_reserve_hardware platMid
        { active_irqs := ∅, pmu_reserved := false }).2.pmu_reserved = false :=
  (C8_reserve_rollback platMid rfl).2
    (armpmu_reserve_hardware platMid { active_irqs := ∅, pmu_reserved := false }).1
    (armpmu_reserve_hardware platMid { active_irqs := ∅, pmu_reserved := false }).2
    rfl (by decide) (by decide)

/-- Claim C8 counterexample: with zero interrupt resources the reservation
fails with -ENODEV while the lower level platform reservation stays held,
so a partially acquired resource does remain after a failed reservation. -/
theorem C8_platform_reservation_leak :
    (armpmu_reserve_hardware platNoIrq
        { active_irqs := ∅, pmu_reserved := false }).1 = -ENODEV
    ∧ (armpmu_reserve_hardware platNoIrq
        { active_irqs := ∅, pmu_reserved := false }).2.pmu_reserved = true := by
  decide

end ArmPmuVerify
